import Mathlib

/-!
Verification of the semantic-search core of the repository
(`src/services/semantic_search.py` and `src/services/rag.py`).

`SemanticSearch` holds a fixed list of documents; its constructor fits a
TF-IDF vectorizer over them, and `query text top_k` ranks all documents by
cosine similarity to the query, descending, ties broken by original document
order (the reference implementation sorts `enumerate(sims)` by score with a
stable sort and truncates to `top_k`).  `RAG.ask` returns the text of the
best-ranked document verbatim.

The vectorization itself is performed by an external library that is not part
of the repository, so it is modelled here from the spec's description
(section 4.1): lowercasing tokenization into word-character runs of length at
least two, a vocabulary of all terms occurring in the document set, weights
`tf * idf` with the smoothed inverse document frequency
`log((1+n)/(1+df)) + 1`, and cosine similarity `(q*d)/(‖q‖*‖d‖)`, equal to 0
when either norm vanishes.  The library l2-normalizes the stored rows, but
cosine similarity is invariant under positive scaling of either argument and
sends the zero vector to score 0 either way, so the scores are those of the
raw weight vectors; the model therefore computes cosine similarity directly
on the raw vectors.  Floating-point arithmetic is idealized as real
arithmetic.
-/

namespace AgenticRag

/-- Word characters of the tokenizer: alphanumeric characters and the
underscore (the `\w` class of the vectorizer's default token pattern). -/
def isWordChar (c : Char) : Bool := c.isAlphanum || c == '_'

/-- Split a character stream into the maximal runs of word characters,
accumulating the current (reversed) run in `cur`. -/
def tokenSplit : List Char → List Char → List String
  | [], cur => if cur.isEmpty then [] else [String.mk cur.reverse]
  | c :: rest, cur =>
    if isWordChar c then tokenSplit rest (c :: cur)
    else (if cur.isEmpty then [] else [String.mk cur.reverse]) ++ tokenSplit rest []

/-- Modelled from the spec: the tokenization performed by the underlying
vectorizer (external library, not under `src/`): lowercase the text and keep
the maximal word-character runs of length at least two. -/
def tokenize (s : String) : List String :=
  (tokenSplit (s.data.map Char.toLower) []).filter (fun w => 2 ≤ w.length)

/-- Modelled from the spec: the vocabulary fitted at construction time, the
set of all terms appearing across the document set. -/
def vocab (D : List String) : Finset String := ((D.map tokenize).flatten).toFinset

/-- Number of documents of `D` containing the term `t` (document frequency). -/
def df (D : List String) (t : String) : ℕ :=
  (D.filter (fun d => (tokenize d).contains t)).length

/-- Modelled from the spec: smoothed inverse document frequency of a term,
`log((1+n)/(1+df)) + 1`. -/
noncomputable def idf (D : List String) (t : String) : ℝ :=
  Real.log ((1 + D.length) / (1 + df D t)) + 1

/-- Modelled from the spec: the TF-IDF weight vector of a text over the
vocabulary fitted on `D`, as a function of the term.  Terms outside the
vocabulary never enter any score because all sums below range over `vocab D`. -/
noncomputable def weight (D : List String) (s : String) : String → ℝ :=
  fun t => ((tokenize s).count t : ℝ) * idf D t

/-- Dot product of two term-weight vectors over the fitted vocabulary. -/
noncomputable def dotP (D : List String) (f g : String → ℝ) : ℝ :=
  ∑ t ∈ vocab D, f t * g t

/-- Euclidean norm of a term-weight vector over the fitted vocabulary. -/
noncomputable def normP (D : List String) (f : String → ℝ) : ℝ :=
  Real.sqrt (dotP D f f)

/-- Cosine similarity of two term-weight vectors.  Division by zero yields 0
in `ℝ`, which matches the spec: the score is 0 when either norm is 0. -/
noncomputable def cosSim (D : List String) (f g : String → ℝ) : ℝ :=
  dotP D f g / (normP D f * normP D g)

/-- The similarity row computed by `query`: cosine similarity of the query
vector against every document vector, in document order. -/
noncomputable def sims (D : List String) (q : String) : List ℝ :=
  D.map (fun d => cosSim D (weight D q) (weight D d))

/-- The comparator of `sorted(..., key=lambda x: x[1], reverse=True)`:
`a` may come before `b` when `a`'s score is at least `b`'s. -/
def scoreGE (a b : ℕ × ℝ) : Prop := b.2 ≤ a.2

noncomputable instance : DecidableRel scoreGE :=
  fun a b => Real.decidableLE b.2 a.2

/-- The full ranking `sorted(enumerate(sims), key=lambda x: x[1],
reverse=True)`.  The reference sort is stable; `List.insertionSort` is the
stable sort with the same comparator, so it produces the same list. -/
noncomputable def ranked (D : List String) (q : String) : List (ℕ × ℝ) :=
  (sims D q).enum.insertionSort scoreGE

/-- The semantic search index: the fixed document set (`documents`); the
fitted vectorizer state is a function of it. -/
structure SemanticSearch where
  documents : List String
deriving DecidableEq

inductive SearchError where
  | InvalidInput
deriving DecidableEq

/-- Modelled from the spec: construction fails with `InvalidInput` when the
underlying vectorization has no terms to fit, i.e. when the fitted vocabulary
is empty (in particular when the document set is empty). -/
def SemanticSearch.make (documents : List String) :
    Except SearchError SemanticSearch :=
  if vocab documents = ∅ then .error .InvalidInput else .ok ⟨documents⟩

/-- `query(text, top_k)`: rank all documents by descending cosine similarity
to `text`, stably, and keep the first `top_k` entries. -/
noncomputable def SemanticSearch.query (s : SemanticSearch) (text : String)
    (top_k : ℕ) : List (ℕ × ℝ) :=
  (ranked s.documents text).take top_k

inductive RagError where
  | NoDocuments
deriving DecidableEq

/-- The retrieval front end: holds the document list and the search index
built over it. -/
structure RAG where
  docs : List String
deriving DecidableEq

/-- Construction of `RAG`: builds the `SemanticSearch` index over the
documents; a construction failure of the index propagates as `NoDocuments`. -/
def RAG.make (documents : List String) : Except RagError RAG :=
  match SemanticSearch.make documents with
  | .error _ => .error .NoDocuments
  | .ok s => .ok ⟨s.documents⟩

/-- `ask(question)`: take the single best match of `query(question, 1)` and
return that document's text verbatim.  `none` models the index error the
reference would raise on an empty result list, which is unreachable for any
constructed `RAG`. -/
noncomputable def RAG.ask (r : RAG) (question : String) : Option String :=
  match (SemanticSearch.mk r.docs).query question 1 with
  | (i, _) :: _ => some (r.docs.getD i "")
  | [] => none

/-! ### The order realized by the ranking

The reference implementation sorts the enumerated similarity row stably by
descending score.  On a list whose indices are strictly increasing, that is
exactly sorting by the strict lexicographic order `rlex`: strictly larger
score first, and original index order on equal scores. -/

/-- Strictly larger score first; equal scores keep the original index order. -/
def rlex (a b : ℕ × ℝ) : Prop := b.2 < a.2 ∨ (a.2 = b.2 ∧ a.1 < b.1)

lemma rlex.score_le {a b : ℕ × ℝ} (h : rlex a b) : b.2 ≤ a.2 := by
  rcases h with h | ⟨h, _⟩
  · exact le_of_lt h
  · exact le_of_eq h.symm

lemma getD_eq_getElem {α : Type} (l : List α) (d : α) (i : ℕ) (h : i < l.length) :
    l.getD i d = l[i] := by
  simp [List.getD_eq_getElem?_getD, List.getElem?_eq_getElem h]

lemma pairwise_rlex_orderedInsert (a : ℕ × ℝ) (l : List (ℕ × ℝ))
    (hl : l.Pairwise rlex) (ha : ∀ x ∈ l, a.1 < x.1) :
    (List.orderedInsert scoreGE a l).Pairwise rlex := by
  induction l with
  | nil => simp [List.orderedInsert, List.pairwise_cons]
  | cons b t ih =>
    by_cases h : scoreGE a b
    · rw [List.orderedInsert, if_pos h]
      refine List.Pairwise.cons ?_ hl
      intro y hy
      have hy1 : a.1 < y.1 := ha y hy
      have hy2 : y.2 ≤ a.2 := by
        rcases List.mem_cons.mp hy with rfl | hyt
        · exact h
        · exact le_trans ((List.pairwise_cons.mp hl).1 y hyt).score_le h
      rcases lt_or_eq_of_le hy2 with hlt | heq
      · exact Or.inl hlt
      · exact Or.inr ⟨heq.symm, hy1⟩
    · rw [List.orderedInsert, if_neg h]
      refine List.Pairwise.cons ?_
        (ih (List.pairwise_cons.mp hl).2 fun x hx => ha x (List.mem_cons_of_mem b hx))
      intro y hy
      rcases (List.mem_orderedInsert scoreGE).mp hy with rfl | hyt
      · exact Or.inl (lt_of_not_le h)
      · exact (List.pairwise_cons.mp hl).1 y hyt

lemma pairwise_rlex_insertionSort (l : List (ℕ × ℝ))
    (hl : l.Pairwise (fun x y => x.1 < y.1)) :
    (l.insertionSort scoreGE).Pairwise rlex := by
  induction l with
  | nil => simp [List.insertionSort]
  | cons a t ih =>
    rw [List.insertionSort]
    refine pairwise_rlex_orderedInsert a _ (ih (List.pairwise_cons.mp hl).2) ?_
    intro x hx
    exact (List.pairwise_cons.mp hl).1 x ((List.mem_insertionSort scoreGE).mp hx)

lemma enum_pairwise_fst (l : List ℝ) :
    l.enum.Pairwise (fun x y : ℕ × ℝ => x.1 < y.1) := by
  rw [List.pairwise_iff_getElem]
  intro i j hi hj hij
  simp only [List.getElem_enum]
  exact hij

lemma ranked_pairwise (D : List String) (q : String) :
    (ranked D q).Pairwise rlex :=
  pairwise_rlex_insertionSort _ (enum_pairwise_fst _)

lemma ranked_perm (D : List String) (q : String) :
    List.Perm (ranked D q) ((sims D q).enum) :=
  List.perm_insertionSort scoreGE _

lemma length_sims (D : List String) (q : String) : (sims D q).length = D.length :=
  List.length_map _ _

lemma length_ranked (D : List String) (q : String) :
    (ranked D q).length = D.length := by
  rw [(ranked_perm D q).length_eq, List.enum_length, length_sims]

lemma mem_enum_sims {D : List String} {q : String} {x : ℕ × ℝ}
    (hx : x ∈ (sims D q).enum) :
    x.1 < D.length ∧ x.2 = (sims D q).getD x.1 0 := by
  rcases List.mem_iff_getElem.mp hx with ⟨i, hi, hix⟩
  have h2 : i < (sims D q).length := by simpa using hi
  rw [List.getElem_enum] at hix
  cases hix
  refine ⟨by simpa [length_sims] using h2, ?_⟩
  rw [getD_eq_getElem _ _ _ h2]

lemma mem_ranked_elim {D : List String} {q : String} {x : ℕ × ℝ}
    (hx : x ∈ ranked D q) :
    x.1 < D.length ∧ x.2 = (sims D q).getD x.1 0 :=
  mem_enum_sims ((ranked_perm D q).subset hx)

/-! ### Score bounds -/

lemma df_le_length (D : List String) (t : String) : df D t ≤ D.length :=
  List.length_filter_le _ _

lemma idf_nonneg (D : List String) (t : String) : 0 ≤ idf D t := by
  have hcast : (df D t : ℝ) ≤ (D.length : ℝ) := Nat.cast_le.mpr (df_le_length D t)
  have h1 : (1 : ℝ) ≤ (1 + D.length) / (1 + df D t) := by
    rw [le_div_iff₀ (by positivity), one_mul]
    linarith
  have h2 := Real.log_nonneg h1
  rw [idf]
  linarith

lemma weight_nonneg (D : List String) (s t : String) : 0 ≤ weight D s t :=
  mul_nonneg (Nat.cast_nonneg _) (idf_nonneg D t)

lemma dotP_nonneg {D : List String} {f g : String → ℝ}
    (hf : ∀ u, 0 ≤ f u) (hg : ∀ u, 0 ≤ g u) : 0 ≤ dotP D f g :=
  Finset.sum_nonneg fun u _ => mul_nonneg (hf u) (hg u)

lemma dotP_self_nonneg (D : List String) (f : String → ℝ) : 0 ≤ dotP D f f :=
  Finset.sum_nonneg fun _ _ => mul_self_nonneg _

lemma dotP_le_norm_mul_norm (D : List String) (f g : String → ℝ) :
    dotP D f g ≤ normP D f * normP D g := by
  have h := Real.sum_mul_le_sqrt_mul_sqrt (vocab D) f g
  have e1 : (∑ t ∈ vocab D, f t ^ 2) = dotP D f f := by
    simp only [dotP, pow_two]
  have e2 : (∑ t ∈ vocab D, g t ^ 2) = dotP D g g := by
    simp only [dotP, pow_two]
  rw [e1, e2] at h
  rw [normP, normP, dotP]
  exact h

lemma cosSim_nonneg (D : List String) (s1 s2 : String) :
    0 ≤ cosSim D (weight D s1) (weight D s2) := by
  rw [cosSim]
  apply div_nonneg
  · exact dotP_nonneg (weight_nonneg D s1) (weight_nonneg D s2)
  · exact mul_nonneg (Real.sqrt_nonneg _) (Real.sqrt_nonneg _)

lemma cosSim_le_one (D : List String) (f g : String → ℝ) :
    cosSim D f g ≤ 1 := by
  rw [cosSim]
  rcases eq_or_lt_of_le
      (mul_nonneg (Real.sqrt_nonneg (dotP D f f)) (Real.sqrt_nonneg (dotP D g g)))
    with h | h
  · rw [normP, normP, ← h, div_zero]
    norm_num
  · rw [div_le_one (by rw [normP, normP]; exact h)]
    exact dotP_le_norm_mul_norm D f g

lemma cosSim_eq_zero_left (D : List String) (f g : String → ℝ)
    (h : normP D f = 0) : cosSim D f g = 0 := by
  rw [cosSim, h, zero_mul, div_zero]

lemma cosSim_eq_zero_right (D : List String) (f g : String → ℝ)
    (h : normP D g = 0) : cosSim D f g = 0 := by
  rw [cosSim, h, mul_zero, div_zero]

lemma cosSim_self (D : List String) (f : String → ℝ) :
    cosSim D f f = 1 ∨ (normP D f = 0 ∧ cosSim D f f = 0) := by
  rcases eq_or_lt_of_le (dotP_self_nonneg D f) with h | h
  · right
    have hn : normP D f = 0 := by rw [normP, ← h, Real.sqrt_zero]
    exact ⟨hn, cosSim_eq_zero_left D f f hn⟩
  · left
    rw [cosSim, normP, Real.mul_self_sqrt (le_of_lt h)]
    exact div_self (ne_of_gt h)

lemma sims_getD (D : List String) (q : String) (j : ℕ) (hj : j < D.length) :
    (sims D q).getD j 0 = cosSim D (weight D q) (weight D (D.getD j "")) := by
  have hj2 : j < (sims D q).length := by rw [length_sims]; exact hj
  rw [getD_eq_getElem _ _ _ hj2, getD_eq_getElem _ _ _ hj]
  simp [sims]

/-! ### Facts about `query` -/

lemma query_eq_take (D : List String) (q : String) (k : ℕ) :
    (SemanticSearch.mk D).query q k = (ranked D q).take k := rfl

lemma query_pairwise (D : List String) (q : String) (k : ℕ) :
    ((SemanticSearch.mk D).query q k).Pairwise rlex := by
  rw [query_eq_take]
  exact List.Pairwise.sublist (List.take_sublist k _) (ranked_pairwise D q)

lemma query_mem_elim {D : List String} {q : String} {k : ℕ} {x : ℕ × ℝ}
    (hx : x ∈ (SemanticSearch.mk D).query q k) :
    x.1 < D.length ∧ x.2 = (sims D q).getD x.1 0 := by
  rw [query_eq_take] at hx
  exact mem_ranked_elim ((List.take_sublist k _).subset hx)

lemma mem_ranked_intro (D : List String) (q : String) (i : ℕ) (hi : i < D.length) :
    (i, (sims D q).getD i 0) ∈ ranked D q := by
  apply (ranked_perm D q).mem_iff.mpr
  have h2 : i < (sims D q).length := by rw [length_sims]; exact hi
  apply List.mem_iff_getElem.mpr
  refine ⟨i, by simpa using h2, ?_⟩
  rw [List.getElem_enum, getD_eq_getElem _ _ _ h2]

lemma query_getD_eq_ranked (D : List String) (q : String) (k p : ℕ)
    (hp : p < ((SemanticSearch.mk D).query q k).length) :
    ((SemanticSearch.mk D).query q k).getD p (0, 0) =
      (ranked D q).getD p (0, 0) := by
  rw [query_eq_take] at hp ⊢
  have hp2 : p < (ranked D q).length := by
    rw [List.length_take] at hp
    omega
  rw [getD_eq_getElem _ _ _ hp, getD_eq_getElem _ _ _ hp2, List.getElem_take]

/-- C1: for every non-empty document set `D`, every query `q` and every
`top_k ≥ 1`, `query q top_k` returns exactly `min top_k |D|` pairs, and
every returned index is a valid index into `D`. -/
theorem claim_C1 (D : List String) (q : String) (k : ℕ)
    (hD : D ≠ []) (hk : 1 ≤ k) :
    ((SemanticSearch.mk D).query q k).length = min k D.length ∧
      ∀ p, p < ((SemanticSearch.mk D).query q k).length →
        (((SemanticSearch.mk D).query q k).getD p (0, 0)).1 < D.length := by
  constructor
  · rw [query_eq_take, List.length_take, length_ranked]
  · intro p hp
    rw [getD_eq_getElem _ _ _ hp]
    exact (query_mem_elim (List.getElem_mem hp)).1

/-- Witness for C1: a two-document set queried with `top_k = 1`. -/
theorem claim_C1_witness :
    ((SemanticSearch.mk ["ab", "cd"]).query "ab" 1).length =
        min 1 (["ab", "cd"] : List String).length ∧
      ∀ p, p < ((SemanticSearch.mk ["ab", "cd"]).query "ab" 1).length →
        (((SemanticSearch.mk ["ab", "cd"]).query "ab" 1).getD p (0, 0)).1 <
          (["ab", "cd"] : List String).length :=
  claim_C1 ["ab", "cd"] "ab" 1 (by decide) (by decide)

/-- C2: the list returned by `query` is sorted by descending similarity
score: each entry's score is at most the previous entry's score. -/
theorem claim_C2 (D : List String) (q : String) (k : ℕ) (hD : D ≠ []) (i : ℕ)
    (h : i + 1 < ((SemanticSearch.mk D).query q k).length) :
    (((SemanticSearch.mk D).query q k).getD (i + 1) (0, 0)).2 ≤
      (((SemanticSearch.mk D).query q k).getD i (0, 0)).2 := by
  have hi : i < ((SemanticSearch.mk D).query q k).length := by omega
  rw [getD_eq_getElem _ _ _ h, getD_eq_getElem _ _ _ hi]
  exact (List.pairwise_iff_getElem.mp (query_pairwise D q k) i (i + 1) hi h
    (by omega)).score_le

/-- Witness for C2: adjacent entries of a two-result query. -/
theorem claim_C2_witness :
    (((SemanticSearch.mk ["ab", "cd"]).query "ab" 2).getD (0 + 1) (0, 0)).2 ≤
      (((SemanticSearch.mk ["ab", "cd"]).query "ab" 2).getD 0 (0, 0)).2 :=
  claim_C2 ["ab", "cd"] "ab" 2 (by decide) 0
    (by rw [query_eq_take, List.length_take, length_ranked]; decide)

/-- C9: the returned indices are pairwise distinct, and once `top_k` reaches
the document count the returned indices are exactly `0, ..., |D|-1`. -/
theorem claim_C9 (D : List String) (q : String) (k : ℕ) (hD : D ≠ []) :
    (((SemanticSearch.mk D).query q k).map Prod.fst).Nodup ∧
      (D.length ≤ k →
        List.Perm (((SemanticSearch.mk D).query q k).map Prod.fst)
          (List.range D.length)) := by
  have hperm : List.Perm ((ranked D q).map Prod.fst) (List.range D.length) := by
    have h := (ranked_perm D q).map Prod.fst
    rwa [List.enum_map_fst, length_sims] at h
  constructor
  · have hsub : List.Sublist (((SemanticSearch.mk D).query q k).map Prod.fst)
        ((ranked D q).map Prod.fst) := by
      rw [query_eq_take]
      exact (List.take_sublist k _).map Prod.fst
    exact List.Nodup.sublist hsub (hperm.symm.nodup (List.nodup_range _))
  · intro hkD
    have htake : (SemanticSearch.mk D).query q k = ranked D q := by
      rw [query_eq_take]
      exact List.take_of_length_le (by rw [length_ranked]; exact hkD)
    rw [htake]
    exact hperm

/-- Witness for C9 at a concrete one-document input. -/
theorem claim_C9_witness :
    (((SemanticSearch.mk ["ab"]).query "cd" 1).map Prod.fst).Nodup ∧
      ((["ab"] : List String).length ≤ 1 →
        List.Perm (((SemanticSearch.mk ["ab"]).query "cd" 1).map Prod.fst)
          (List.range (["ab"] : List String).length)) :=
  claim_C9 ["ab"] "cd" 1 (by decide)

/-- C10: `top_k = 0` returns the empty list: the implementation truncates
the full ranking to its first zero entries. -/
theorem claim_C10 (D : List String) (q : String) (hD : D ≠ []) :
    (SemanticSearch.mk D).query q 0 = [] := rfl

/-- Witness for C10 at a concrete input. -/
theorem claim_C10_witness : (SemanticSearch.mk ["ab"]).query "cd" 0 = [] :=
  claim_C10 ["ab"] "cd" (by decide)

lemma sims_eq_of_text_eq (D : List String) (q : String) {i j : ℕ}
    (hi : i < D.length) (hj : j < D.length)
    (htext : D.getD i "" = D.getD j "") :
    (sims D q).getD i 0 = (sims D q).getD j 0 := by
  rw [sims_getD D q i hi, sims_getD D q j hj, htext]

/-- C3: ranking is stable on ties.  If documents `i < j` receive equal
similarity scores (in particular if their texts are identical), then wherever
document `j` appears in the returned list, document `i` appears at an earlier
position. -/
theorem claim_C3 (D : List String) (q : String) (k : ℕ) (i j : ℕ)
    (hij : i < j) (hj : j < D.length)
    (heq : D.getD i "" = D.getD j "" ∨ (sims D q).getD i 0 = (sims D q).getD j 0)
    (p2 : ℕ) (hp2 : p2 < ((SemanticSearch.mk D).query q k).length)
    (hjp : (((SemanticSearch.mk D).query q k).getD p2 (0, 0)).1 = j) :
    ∃ p1, p1 < p2 ∧
      (((SemanticSearch.mk D).query q k).getD p1 (0, 0)).1 = i := by
  have hi : i < D.length := lt_trans hij hj
  have hsims : (sims D q).getD i 0 = (sims D q).getD j 0 := by
    rcases heq with htext | hs
    · exact sims_eq_of_text_eq D q hi hj htext
    · exact hs
  -- position of the pair for document i in the full ranking
  rcases List.mem_iff_getElem.mp (mem_ranked_intro D q i hi) with ⟨p1, hq1, hre⟩
  -- the entry at position p2 of the full ranking is the pair for document j
  have hp2len : p2 < (ranked D q).length := by
    rw [query_eq_take, List.length_take] at hp2
    omega
  have hp2r : ((ranked D q).getD p2 (0, 0)).1 = j := by
    rw [← query_getD_eq_ranked D q k p2 hp2]
    exact hjp
  have hp2e : ((ranked D q)[p2]).1 = j := by
    rw [← getD_eq_getElem _ (0, 0) _ hp2len]
    exact hp2r
  have hp2s : ((ranked D q)[p2]).2 = (sims D q).getD j 0 := by
    have hmem := mem_ranked_elim (List.getElem_mem hp2len)
    rw [hmem.2, hp2e]
  -- p1 comes strictly before p2
  have hlt : p1 < p2 := by
    rcases lt_trichotomy p1 p2 with h | h | h
    · exact h
    · exfalso
      subst h
      rw [hre] at hp2e
      simp only [Prod.fst] at hp2e
      omega
    · exfalso
      have hr := List.pairwise_iff_getElem.mp (ranked_pairwise D q) p2 p1
        hp2len hq1 h
      rw [hre] at hr
      rcases hr with hr | ⟨hr1, hr2⟩
      · have hlt2 : (sims D q).getD i 0 < (sims D q).getD j 0 := by
          simpa [hp2s] using hr
        rw [hsims] at hlt2
        exact lt_irrefl _ hlt2
      · rw [hp2e] at hr2
        omega
  refine ⟨p1, hlt, ?_⟩
  have hp1q : p1 < ((SemanticSearch.mk D).query q k).length := by omega
  rw [query_getD_eq_ranked D q k p1 hp1q, getD_eq_getElem _ _ _ hq1, hre]

lemma sims_two_eq (d q : String) :
    sims [d, d] q =
      [cosSim [d, d] (weight [d, d] q) (weight [d, d] d),
       cosSim [d, d] (weight [d, d] q) (weight [d, d] d)] := rfl

lemma ranked_two_identical (d q : String) :
    ranked [d, d] q =
      [(0, cosSim [d, d] (weight [d, d] q) (weight [d, d] d)),
       (1, cosSim [d, d] (weight [d, d] q) (weight [d, d] d))] := by
  rw [ranked, sims_two_eq]
  simp [List.insertionSort, List.orderedInsert, scoreGE]

/-- Witness for C3: two identical documents, queried with their common text;
the pair for document 0 precedes the pair for document 1. -/
theorem claim_C3_witness :
    ∃ p1, p1 < 1 ∧
      (((SemanticSearch.mk ["ab", "ab"]).query "ab" 2).getD p1 (0, 0)).1 = 0 :=
  claim_C3 ["ab", "ab"] "ab" 2 0 1 (by decide) (by decide) (Or.inl rfl) 1
    (by rw [query_eq_take, List.length_take, length_ranked]; decide)
    (by rw [query_eq_take, ranked_two_identical]; rfl)

/-- C4: `SemanticSearch` construction fails with `InvalidInput` exactly when
the document set is empty or has no extractable vocabulary, and succeeds as
soon as some document has a tokenizable term. -/
theorem claim_C4 (D : List String) :
    (SemanticSearch.make D = Except.error SearchError.InvalidInput ↔
        D = [] ∨ vocab D = ∅) ∧
      ((∃ d ∈ D, tokenize d ≠ []) → SemanticSearch.make D = Except.ok ⟨D⟩) := by
  constructor
  · constructor
    · intro h
      right
      by_contra hv
      rw [SemanticSearch.make, if_neg hv] at h
      exact Except.noConfusion h
    · intro h
      have hv : vocab D = ∅ := by
        rcases h with rfl | hv
        · rfl
        · exact hv
      rw [SemanticSearch.make, if_pos hv]
  · rintro ⟨d, hd, ht⟩
    have hv : vocab D ≠ ∅ := by
      rcases List.exists_mem_of_ne_nil _ ht with ⟨t, htk⟩
      intro hemp
      have hmem : t ∈ vocab D := by
        rw [vocab]
        apply List.mem_toFinset.mpr
        exact List.mem_flatten.mpr ⟨tokenize d, List.mem_map_of_mem _ hd, htk⟩
      rw [hemp] at hmem
      exact Finset.not_mem_empty t hmem
    rw [SemanticSearch.make, if_neg hv]

/-- Witness for C4: a singleton document with one term is accepted, and the
failure condition is equivalent to the empty-vocabulary condition there. -/
theorem claim_C4_witness :
    (SemanticSearch.make ["ab"] = Except.error SearchError.InvalidInput ↔
        (["ab"] : List String) = [] ∨ vocab ["ab"] = ∅) ∧
      ((∃ d ∈ (["ab"] : List String), tokenize d ≠ []) →
        SemanticSearch.make ["ab"] = Except.ok ⟨["ab"]⟩) :=
  claim_C4 ["ab"]

/-- C5: constructing `RAG` over the empty document set fails with
`NoDocuments`, propagated from the `SemanticSearch` construction failure; no
`RAG` value is produced, so `ask` cannot be invoked in that state. -/
theorem claim_C5 :
    RAG.make [] = Except.error RagError.NoDocuments ∧
      ∀ r : RAG, RAG.make [] ≠ Except.ok r := by
  constructor
  · rfl
  · intro r h
    rw [show RAG.make [] = Except.error RagError.NoDocuments from rfl] at h
    exact Except.noConfusion h

/-- C6: for every successfully constructed `RAG` and every question, `ask`
returns, verbatim, the text of the document ranked first by
`query(question, top_k = 1)`. -/
theorem claim_C6 (D : List String) (q : String) (r : RAG)
    (hmk : RAG.make D = Except.ok r) :
    ∃ i s, (SemanticSearch.mk D).query q 1 = [(i, s)] ∧ i < D.length ∧
      RAG.ask r q = some (D.getD i "") := by
  -- construction success forces a non-empty vocabulary and `r = ⟨D⟩`
  have hv : vocab D ≠ ∅ := by
    intro hemp
    rw [RAG.make, SemanticSearch.make, if_pos hemp] at hmk
    exact Except.noConfusion hmk
  have hrD : r = ⟨D⟩ := by
    rw [RAG.make, SemanticSearch.make, if_neg hv] at hmk
    exact (Except.ok.inj hmk).symm
  have hD : D ≠ [] := by
    intro hnil
    exact hv (by rw [hnil]; rfl)
  -- the full ranking is non-empty, so `query q 1` is a singleton
  have hlen : 0 < (ranked D q).length := by
    rw [length_ranked]
    exact List.length_pos.mpr hD
  rcases hr : ranked D q with _ | ⟨⟨i, s⟩, t⟩
  · rw [hr] at hlen
    exact absurd hlen (by simp)
  have hquery : (SemanticSearch.mk D).query q 1 = [(i, s)] := by
    rw [query_eq_take, hr]
    rfl
  refine ⟨i, s, hquery, ?_, ?_⟩
  · have hmem : ((i, s) : ℕ × ℝ) ∈ ranked D q := by
      rw [hr]
      exact List.mem_cons_self _ _
    exact (mem_ranked_elim hmem).1
  · rw [hrD, RAG.ask]
    simp only [hquery]

/-- Witness for C6 at a concrete constructed `RAG`. -/
theorem claim_C6_witness :
    ∃ i s, (SemanticSearch.mk ["ab"]).query "ab" 1 = [(i, s)] ∧
      i < (["ab"] : List String).length ∧
      RAG.ask ⟨["ab"]⟩ "ab" = some ((["ab"] : List String).getD i "") :=
  claim_C6 ["ab"] "ab" ⟨["ab"]⟩ rfl

/-- C7: querying with the exact text of document `i` makes document `i` a
top-ranked (possibly tied) result: its similarity score is at least every
other document's score. -/
theorem claim_C7 (D : List String) (i : ℕ) (hi : i < D.length)
    (hvoc : ∃ d ∈ D, tokenize d ≠ []) (j : ℕ) (hj : j < D.length) :
    (sims D (D.getD i "")).getD j 0 ≤ (sims D (D.getD i "")).getD i 0 := by
  rw [sims_getD D _ i hi, sims_getD D _ j hj]
  rcases cosSim_self D (weight D (D.getD i "")) with h | ⟨hn, h⟩
  · rw [h]
    exact cosSim_le_one D _ _
  · rw [h, cosSim_eq_zero_left D _ _ hn]

/-- Witness for C7: a two-document set queried with the text of document 0. -/
theorem claim_C7_witness :
    (sims ["ab", "cd"] ((["ab", "cd"] : List String).getD 0 "")).getD 1 0 ≤
      (sims ["ab", "cd"] ((["ab", "cd"] : List String).getD 0 "")).getD 0 0 :=
  claim_C7 ["ab", "cd"] 0 (by decide) (by decide) 1 (by decide)

/-- C8: every score returned by `query` lies in `[0, 1]`, and it is exactly 0
whenever the query vector or the corresponding document vector has zero
norm. -/
theorem claim_C8 (D : List String) (q : String) (k p : ℕ)
    (hp : p < ((SemanticSearch.mk D).query q k).length) :
    0 ≤ (((SemanticSearch.mk D).query q k).getD p (0, 0)).2 ∧
      (((SemanticSearch.mk D).query q k).getD p (0, 0)).2 ≤ 1 ∧
      (normP D (weight D q) = 0 →
        (((SemanticSearch.mk D).query q k).getD p (0, 0)).2 = 0) ∧
      (normP D
          (weight D
            (D.getD (((SemanticSearch.mk D).query q k).getD p (0, 0)).1 "")) = 0 →
        (((SemanticSearch.mk D).query q k).getD p (0, 0)).2 = 0) := by
  have hx := query_mem_elim
    (getD_eq_getElem _ ((0 : ℕ), (0 : ℝ)) _ hp ▸ List.getElem_mem hp)
  have hs : (((SemanticSearch.mk D).query q k).getD p (0, 0)).2 =
      cosSim D (weight D q)
        (weight D (D.getD (((SemanticSearch.mk D).query q k).getD p (0, 0)).1 "")) := by
    rw [hx.2, sims_getD D q _ hx.1]
  rw [hs]
  exact ⟨cosSim_nonneg D _ _, cosSim_le_one D _ _,
    fun h => cosSim_eq_zero_left D _ _ h, fun h => cosSim_eq_zero_right D _ _ h⟩

/-- Witness for C8 at a concrete input. -/
theorem claim_C8_witness :
    0 ≤ (((SemanticSearch.mk ["ab"]).query "ab" 1).getD 0 (0, 0)).2 ∧
      (((SemanticSearch.mk ["ab"]).query "ab" 1).getD 0 (0, 0)).2 ≤ 1 ∧
      (normP ["ab"] (weight ["ab"] "ab") = 0 →
        (((SemanticSearch.mk ["ab"]).query "ab" 1).getD 0 (0, 0)).2 = 0) ∧
      (normP ["ab"]
          (weight ["ab"]
            ((["ab"] : List String).getD
              (((SemanticSearch.mk ["ab"]).query "ab" 1).getD 0 (0, 0)).1 "")) = 0 →
        (((SemanticSearch.mk ["ab"]).query "ab" 1).getD 0 (0, 0)).2 = 0) :=
  claim_C8 ["ab"] "ab" 1 0
    (by rw [query_eq_take, List.length_take, length_ranked]; decide)

end AgenticRag
